import Mathlib

/-!
Shallow embedding of the crossref_data_extraction pipeline
(src/main.py, src/api/crossref_client.py, src/extractors/llm_extractor.py,
src/models/schemas.py) and proofs about its behaviour.

Python dynamic values exchanged with external services (HTTP bodies, the
reasoning-service response, raw property records) are modelled by the
inductive `Json` type below; Python `dict`s are association lists keeping
insertion order, and `dict.get`/`in` take the first binding.  Numbers are
modelled as rationals (`ℚ`), covering Python ints and the decimal floats
that occur in this pipeline.  Python strings are Lean `String`s, except in
the DOI-normalization development where they are `List Char` so that the
left-to-right scan of `str.replace` can be reasoned about directly.
Exceptions are modelled with `Option`/`Except`: `none`/`.error` marks a
raised exception at the boundary where the source catches it.
-/

/-- A JSON-like dynamic value (Python object graph after `json.loads`). -/
inductive Json where
  | null : Json
  | bool (b : Bool) : Json
  | num (q : ℚ) : Json
  | str (s : String) : Json
  | arr (elems : List Json) : Json
  | obj (fields : List (String × Json)) : Json
deriving Repr

/-- First binding of a key in a Python dict modelled as an assoc list
(`d.get(k)` / `k in d`). -/
def lookupField (fields : List (String × Json)) (k : String) : Option Json :=
  match fields with
  | [] => none
  | (k', v) :: rest => if k' = k then some v else lookupField rest k

/-- `d.get(k)` on a Json value known to be used as a dict; non-dicts have
no fields. -/
def getField (j : Json) (k : String) : Option Json :=
  match j with
  | .obj fields => lookupField fields k
  | _ => none

/-- Python `d[k] = v` on a dict that already has key `k`: the binding is
replaced in place (first occurrence; keys are unique after `json.loads`). -/
def setField (fields : List (String × Json)) (k : String) (v : Json) :
    List (String × Json) :=
  match fields with
  | [] => []
  | (k', v') :: rest =>
    if k' = k then (k', v) :: rest else (k', v') :: setField rest k v

/-- Worker for `pyReplace`: the scan consumes at least one character and
one unit of fuel per step, so fuel `s.length` always suffices; the fuel
makes the recursion structural (hence kernel-computable on concrete
strings). -/
def pyReplaceGo (pat rep : List Char) : ℕ → List Char → List Char
  | 0, s => s
  | fuel + 1, s =>
    match s with
    | [] => []
    | c :: rest =>
      if pat ≠ [] ∧ pat.isPrefixOf (c :: rest) then
        rep ++ pyReplaceGo pat rep fuel ((c :: rest).drop pat.length)
      else
        c :: pyReplaceGo pat rep fuel rest

/-- Python `str.replace(pat, rep)`: left-to-right scan replacing each
non-overlapping occurrence of `pat` (nonempty in every use in this code)
by `rep`. -/
def pyReplace (pat rep : List Char) (s : List Char) : List Char :=
  pyReplaceGo pat rep s.length s

/-- Python `pat in s` (substring test), specialised to the use sites. -/
def containsPat (pat : List Char) (s : List Char) : Bool :=
  match s with
  | [] => pat.isPrefixOf ([] : List Char)
  | _ :: rest => pat.isPrefixOf s || containsPat pat rest

theorem pyReplaceGo_fuel_irrel (pat rep : List Char) (fuel : ℕ) :
    ∀ (fuel' : ℕ) (s : List Char), s.length ≤ fuel → s.length ≤ fuel' →
      pyReplaceGo pat rep fuel s = pyReplaceGo pat rep fuel' s := by
  induction fuel with
  | zero =>
    intro fuel' s hs _
    have : s = [] := List.eq_nil_of_length_eq_zero (Nat.le_zero.mp hs)
    subst this
    cases fuel' <;> rfl
  | succ fuel ih =>
    intro fuel' s hs hs'
    cases s with
    | nil => cases fuel' <;> rfl
    | cons c rest =>
      have hlen : rest.length + 1 ≤ fuel' := by simpa using hs'
      obtain ⟨g, rfl⟩ : ∃ g, fuel' = g + 1 := by
        cases fuel' with
        | zero => omega
        | succ g => exact ⟨g, rfl⟩
      rw [pyReplaceGo, pyReplaceGo]
      by_cases hc : pat ≠ [] ∧ pat.isPrefixOf (c :: rest)
      · rw [if_pos hc, if_pos hc]
        have hpos : 0 < pat.length := List.length_pos.mpr hc.1
        have hdrop : ((c :: rest).drop pat.length).length ≤ fuel := by
          simp only [List.length_drop, List.length_cons]
          simp only [List.length_cons] at hs
          omega
        have hdrop' : ((c :: rest).drop pat.length).length ≤ g := by
          simp only [List.length_drop, List.length_cons]
          omega
        rw [ih g _ hdrop hdrop']
      · rw [if_neg hc, if_neg hc]
        have h1 : rest.length ≤ fuel := by
          simp only [List.length_cons] at hs
          omega
        have h2 : rest.length ≤ g := by omega
        rw [ih g rest h1 h2]

theorem pyReplace_append_prefix (pat rep s : List Char) (hpat : pat ≠ []) :
    pyReplace pat rep (pat ++ s) = rep ++ pyReplace pat rep s := by
  obtain ⟨c, pat', rfl⟩ : ∃ c pat', pat = c :: pat' := by
    cases pat with
    | nil => exact absurd rfl hpat
    | cons c pat' => exact ⟨c, pat', rfl⟩
  have hpre : (c :: pat').isPrefixOf ((c :: pat') ++ s) := by
    simp [List.isPrefixOf_iff_prefix]
  have hlen : ((c :: pat') ++ s).length = pat'.length + s.length + 1 := by
    simp only [List.length_append, List.length_cons]
    omega
  rw [pyReplace, hlen, List.cons_append, pyReplaceGo]
  rw [if_pos ⟨List.cons_ne_nil c pat', hpre⟩]
  have hdrop : (c :: (pat' ++ s)).drop (c :: pat').length = s := by
    have hrw : c :: (pat' ++ s) = (c :: pat') ++ s := rfl
    rw [hrw, List.drop_left]
  rw [hdrop, pyReplace]
  congr 1
  exact pyReplaceGo_fuel_irrel (c :: pat') rep _ _ s (by omega) (le_refl _)

theorem pyReplace_of_not_contains (pat rep s : List Char)
    (h : containsPat pat s = false) : pyReplace pat rep s = s := by
  induction s with
  | nil => rfl
  | cons c rest ih =>
    rw [containsPat, Bool.or_eq_false_iff] at h
    rw [pyReplace, List.length_cons, pyReplaceGo]
    rw [if_neg (by simp [h.1])]
    have hrest := ih h.2
    rw [pyReplace] at hrest
    rw [hrest]

/-- Value of a digit string (`"1234"` ↦ `1234`), most significant first. -/
def digitsVal (cs : List Char) : ℕ :=
  cs.foldl (fun a c => 10 * a + (c.toNat - 48)) 0

/-- Unsigned decimal mantissa: `digits`, `digits.digits`, `digits.` or
`.digits`, needing at least one digit overall. -/
def parseUnsigned (cs : List Char) : Option ℚ :=
  match cs.splitOn '.' with
  | [intp] =>
    if intp ≠ [] ∧ intp.all Char.isDigit then some (digitsVal intp : ℚ)
    else none
  | [intp, fracp] =>
    if (intp ≠ [] ∨ fracp ≠ []) ∧ intp.all Char.isDigit ∧
        fracp.all Char.isDigit then
      some ((digitsVal intp : ℚ) + (digitsVal fracp : ℚ) / (10 ^ fracp.length))
    else none
  | _ => none

/-- Mantissa with optional sign. -/
def parseSigned (cs : List Char) : Option ℚ :=
  match cs with
  | '+' :: rest => parseUnsigned rest
  | '-' :: rest => (parseUnsigned rest).map Neg.neg
  | _ => parseUnsigned cs

/-- Exponent: an optionally signed digit string, as an integer. -/
def parseSignedInt (cs : List Char) : Option ℤ :=
  match cs with
  | '+' :: rest =>
    if rest ≠ [] ∧ rest.all Char.isDigit then some (digitsVal rest : ℤ)
    else none
  | '-' :: rest =>
    if rest ≠ [] ∧ rest.all Char.isDigit then some (-(digitsVal rest : ℤ))
    else none
  | _ =>
    if cs ≠ [] ∧ cs.all Char.isDigit then some (digitsVal cs : ℤ) else none

/-- The whitespace stripping `float()` performs on its string argument
(Python `str.strip()`). -/
def pyStrip (cs : List Char) : List Char :=
  ((cs.dropWhile Char.isWhitespace).reverse.dropWhile
    Char.isWhitespace).reverse

/-- Python's `float(s)` builtin on the finite decimal forms that occur in
this pipeline: optional surrounding whitespace, optional sign, decimal
mantissa, optional `e`/`E` exponent.  (Specials such as `inf`/`nan` and
PEP 515 underscores are outside the model; a string this parser rejects
models a `ValueError`.) -/
def pyFloat (s : String) : Option ℚ :=
  let cs := (pyStrip s.toList).map (fun c => if c = 'E' then 'e' else c)
  match cs.splitOn 'e' with
  | [m] => parseSigned m
  | [m, ex] => do
    let mv ← parseSigned m
    let ev ← parseSignedInt ex
    pure (mv * (10 : ℚ) ^ ev)
  | _ => none

/-- Python `max(it, key=key)` semantics: the first element attaining the
maximum key, scanning left to right (`cur` is the running maximum). -/
def pyMaxBy {α : Type} (key : α → ℤ) (cur : α) : List α → α
  | [] => cur
  | x :: rest => pyMaxBy key (if key x > key cur then x else cur) rest

/-!
## Crossref metadata (src/api/crossref_client.py)

A catalog metadata document (the `message` object of the works-lookup
response) is modelled with one `Option` per dict key the code accesses:
`none` means the key is absent.  `date-parts` entries are lists of ints in
real documents; the code's fallback default `[[None]]` injects `None`,
so the extracted publication-date entry has element type `Option ℤ`.
-/

/-- One entry of the `author` list: optional `given`/`family` names. -/
structure AuthorRec where
  given : Option String
  family : Option String
deriving Repr, DecidableEq

/-- The `published-print` sub-dict, with its optional `date-parts` key. -/
structure PublishedPrint where
  date_parts : Option (List (List ℤ))
deriving Repr, DecidableEq

/-- A catalog metadata document, keys as accessed by
`extract_paper_info`. -/
structure CrossrefMeta where
  DOI : Option String
  title : Option (List String)
  author : Option (List AuthorRec)
  published_print : Option PublishedPrint
  container_title : Option (List String)
  publisher : Option String
  abstract : Option String
deriving Repr, DecidableEq

/-- The dict returned by `extract_paper_info`. -/
structure PaperInfo where
  doi : String
  title : String
  authors : List String
  publication_date : List (Option ℤ)
  journal : String
  publisher : String
  abstract : String
deriving Repr, DecidableEq

/-- `metadata.get(k, [""])[0] if metadata.get(k) else ""`: first element
of a present nonempty list, else the empty string (an absent key and an
empty list are both falsy). -/
def firstOrEmpty (field : Option (List String)) : String :=
  match field with
  | none => ""
  | some [] => ""
  | some (t :: _) => t

/-- The author loop: `"{given} {family}".strip()`, dropped when empty. -/
def extractAuthors (field : Option (List AuthorRec)) : List String :=
  match field with
  | none => []
  | some l =>
    l.filterMap (fun a =>
      let name := ((a.given.getD "") ++ " " ++ (a.family.getD "")).trim
      if name = "" then none else some name)

/-- `metadata.get("published-print", {}).get("date-parts", [[None]])[0]`:
the first `date-parts` entry; `none` models the `IndexError` raised when
`date-parts` is present but empty. -/
def pubDateField (m : CrossrefMeta) : Option (List (Option ℤ)) :=
  let dps : List (List (Option ℤ)) :=
    match m.published_print with
    | none => [[none]]
    | some pp =>
      match pp.date_parts with
      | none => [[none]]
      | some l => l.map (fun e => e.map some)
  dps.head?

/-- `CrossrefClient.extract_paper_info`; `none` models an uncaught
exception (only the `IndexError` of `pubDateField` is possible). -/
def extract_paper_info (m : CrossrefMeta) : Option PaperInfo :=
  (pubDateField m).map (fun pd =>
    { doi := m.DOI.getD ""
      title := firstOrEmpty m.title
      authors := extractAuthors m.author
      publication_date := pd
      journal := firstOrEmpty m.container_title
      publisher := m.publisher.getD ""
      abstract := m.abstract.getD "" })

/-!
## Typed pipeline entities (src/models/schemas.py)

Pydantic models.  Timestamps are opaque strings supplied by the caller
(the code uses `datetime.now()` defaults and serializes them with
`default=str`).
-/

/-- `PaperMetadata` (schemas.py). -/
structure PaperMetadata where
  doi : String
  title : String
  authors : List String
  publication_date : Option String
  journal : Option String
deriving Repr, DecidableEq

/-- `MechanicalProperty` (schemas.py): one measurement record.
`additional_info` is `none` when `None` was passed explicitly, `some
fields` otherwise (missing gives the default empty dict). -/
structure MechanicalProperty where
  material : String
  condition : Option String
  property_name : String
  value : ℚ
  unit : String
  temperature : Option ℚ
  temperature_unit : Option String
  strain_rate : Option ℚ
  additional_info : Option (List (String × Json))
deriving Repr

/-- `ExtractedData` (schemas.py). -/
structure ExtractedData where
  paper_metadata : PaperMetadata
  mechanical_properties : List MechanicalProperty
  extraction_timestamp : String
  extraction_method : String
deriving Repr

/-- `UnifiedResults` (schemas.py). -/
structure UnifiedResults where
  extraction_date : String
  papers_processed : ℕ
  total_properties_extracted : ℕ
  data : List ExtractedData
deriving Repr

/-- Python `str()` of a date-parts element: `str(None) = "None"`,
`str(2019) = "2019"`. -/
def pyStrOptInt (x : Option ℤ) : String :=
  match x with
  | none => "None"
  | some n => toString n

/-- The `PaperMetadata(...)` construction in `process_papers`
(src/main.py lines 59-66): `str(pd[0]) if pd else None` on the extracted
`publication_date` list, which is falsy exactly when empty. -/
def mkPaperMetadata (info : PaperInfo) : PaperMetadata :=
  { doi := info.doi
    title := info.title
    authors := info.authors
    publication_date :=
      match info.publication_date with
      | [] => none
      | x :: _ => some (pyStrOptInt x)
    journal := some info.journal }

/-!
## Retry decorator (tenacity) and `get_metadata`

`@retry(stop=stop_after_attempt(3), wait=wait_exponential(multiplier=1,
min=4, max=10))` re-invokes the wrapped callable on ANY exception until
it either succeeds or three attempts have been made; the wait times do
not affect which attempt finally answers, so the model tracks attempts
only.  The external world is an attempt-indexed environment, so a call
may fail on one attempt and succeed on a later one.
-/

/-- `retryGo f k r`: run attempts `k, k+1, ...` with `r` attempts still
allowed; returns the final outcome and the total number of attempts
made. -/
def retryGo {ε α : Type} (f : ℕ → Except ε α) : ℕ → ℕ → Except ε α × ℕ
  | k, 0 => (f k, k + 1)
  | k, 1 => (f k, k + 1)
  | k, r + 2 =>
    match f k with
    | .ok a => (.ok a, k + 1)
    | .error _ => retryGo f (k + 1) (r + 1)

/-- The tenacity decorator with `stop_after_attempt(3)`. -/
def retryRun {ε α : Type} (f : ℕ → Except ε α) : Except ε α × ℕ :=
  retryGo f 0 3

/-- An HTTP response from the catalog service. -/
structure HttpResponse where
  status : ℕ
  body : Json

/-- Failure of one `get_metadata` attempt: the HTTP status that made
`raise_for_status` raise, or a body without a `message` field. -/
inductive GetErr where
  | httpStatus (code : ℕ) : GetErr
  | badBody : GetErr
deriving Repr, DecidableEq

/-- The resolver prefix stripped by `doi.replace("https://doi.org/", "")`. -/
def doiPrefix : List Char := "https://doi.org/".toList

/-- DOI normalization performed at the top of `get_metadata` and
`download_pdf`. -/
def normalizeDoi (doi : List Char) : List Char :=
  pyReplace doiPrefix [] doi

/-- `f"{self.BASE_URL}/{doi}"` after normalization. -/
def metadataUrl (doi : List Char) : List Char :=
  "https://api.crossref.org/works/".toList ++ normalizeDoi doi

/-- One attempt of the body of `get_metadata`: build the URL, issue the
GET, `raise_for_status()` (any status ≥ 400 raises, with no
discrimination by the decorator), then return `response.json()["message"]`. -/
def getMetadataOnce (env : ℕ → List Char → HttpResponse) (doi : List Char)
    (k : ℕ) : Except GetErr Json :=
  let resp := env k (metadataUrl doi)
  if 400 ≤ resp.status then .error (.httpStatus resp.status)
  else
    match getField resp.body "message" with
    | some m => .ok m
    | none => .error .badBody

/-- `CrossrefClient.get_metadata` under its retry decorator: result plus
the number of attempts actually made. -/
def get_metadata (env : ℕ → List Char → HttpResponse) (doi : List Char) :
    Except GetErr Json × ℕ :=
  retryRun (getMetadataOnce env doi)

/-!
## LLM response handling (src/extractors/llm_extractor.py)
-/

/-- First value of the dict that is a list
(`for value in data.values(): if isinstance(value, list): return value`). -/
def firstArrayValue (fields : List (String × Json)) : Option Json :=
  match fields with
  | [] => none
  | (_, v) :: rest =>
    match v with
    | .arr xs => some (.arr xs)
    | _ => firstArrayValue rest

/-- The response-shape handling of `extract_properties` (llm_extractor.py
lines 120-135), applied to the parsed response document.  The Python
returns `data["properties"]` / `data["data"]` unchecked, so the result
type is `Json`, not a list; `Json.arr []` is the `return []` fall-through. -/
def parseResponse (data : Json) : Json :=
  match data with
  | .obj fields =>
    match lookupField fields "properties" with
    | some v => v
    | none =>
      match lookupField fields "data" with
      | some v => v
      | none =>
        match firstArrayValue fields with
        | some v => v
        | none => .arr []
  | .arr xs => .arr xs
  | _ => .arr []

/-- One attempt of `extract_properties`: everything from the service call
through JSON parsing sits inside `try/except`, so any failure (network
error, malformed JSON, service error — the environment's `.error`) is
swallowed and the attempt returns `[]`.  The attempt itself never raises. -/
def extractPropertiesOnce (env : ℕ → Except String Json) (k : ℕ) :
    Except String Json :=
  match env k with
  | .error _ => .ok (.arr [])
  | .ok data => .ok (parseResponse data)

/-- `LLMExtractor.extract_properties` under its retry decorator: parsed
result plus the number of attempts made. -/
def extract_properties (env : ℕ → Except String Json) :
    Except String Json × ℕ :=
  retryRun (extractPropertiesOnce env)

/-!
## Record coercion and validation (llm_extractor.py lines 162-175,
schemas.py)
-/

/-- Pydantic validation of a required `str` field. -/
def asStr (v : Option Json) : Option String :=
  match v with
  | some (.str s) => some s
  | _ => none

/-- Pydantic validation of an `Optional[str]` field defaulting to `None`:
missing or `null` give `none`; anything but a string is rejected. -/
def asOptStr (v : Option Json) : Option (Option String) :=
  match v with
  | none => some none
  | some .null => some none
  | some (.str s) => some (some s)
  | some _ => none

/-- Pydantic (v2, lax mode) validation of a required `float` field:
numbers, and numeric strings via coercion, are accepted. -/
def asNum (v : Option Json) : Option ℚ :=
  match v with
  | some (.num q) => some q
  | some (.str s) => pyFloat s
  | _ => none

/-- Pydantic validation of an `Optional[float]` field. -/
def asOptNum (v : Option Json) : Option (Option ℚ) :=
  match v with
  | none => some none
  | some .null => some none
  | some (.num q) => some (some q)
  | some (.str s) => (pyFloat s).map some
  | some _ => none

/-- Pydantic validation of `additional_info : Optional[Dict[str, Any]]`
with `default_factory=dict`: missing gives the empty dict, an explicit
`null` gives `None`, a dict is taken as is, anything else is rejected. -/
def asAddInfo (v : Option Json) : Option (Option (List (String × Json))) :=
  match v with
  | none => some (some [])
  | some .null => some none
  | some (.obj fields) => some (some fields)
  | some _ => none

/-- `MechanicalProperty(**prop)`: pydantic construction/validation.
`none` models a raised `ValidationError` (or the `TypeError` of `**` on a
non-dict); extra keys are ignored (pydantic default). -/
def mkMechanicalProperty (record : Json) : Option MechanicalProperty :=
  match record with
  | .obj fields => do
    let material ← asStr (lookupField fields "material")
    let condition ← asOptStr (lookupField fields "condition")
    let property_name ← asStr (lookupField fields "property_name")
    let value ← asNum (lookupField fields "value")
    let unit ← asStr (lookupField fields "unit")
    let temperature ← asOptNum (lookupField fields "temperature")
    let temperature_unit ← asOptStr (lookupField fields "temperature_unit")
    let strain_rate ← asOptNum (lookupField fields "strain_rate")
    let additional_info ← asAddInfo (lookupField fields "additional_info")
    pure { material, condition, property_name, value, unit, temperature,
           temperature_unit, strain_rate, additional_info }
  | _ => none

/-- One iteration of the coercion loop in `extract_from_paper`: if the
record's `value` is a string, strip commas and parse it with `float`
(failure raises, caught by the per-record `except`), then validate.
`none` models a record dropped by the `except ... continue`. -/
def coerceRecord (record : Json) : Option MechanicalProperty :=
  match record with
  | .obj fields =>
    match lookupField fields "value" with
    | some (.str s) =>
      match pyFloat (String.mk (pyReplace [','] [] s.toList)) with
      | none => none
      | some q => mkMechanicalProperty (.obj (setField fields "value" (.num q)))
    | _ => mkMechanicalProperty (.obj fields)
  | _ => none

/-- The `for prop in raw_properties` loop with its `try/except/continue`:
failing records are skipped, the rest are kept in order. -/
def coerceAll (raws : List Json) : List MechanicalProperty :=
  match raws with
  | [] => []
  | p :: rest =>
    match coerceRecord p with
    | some m => m :: coerceAll rest
    | none => coerceAll rest

/-- `LLMExtractor.extract_from_paper` after text extraction and the LLM
call: `raws` is the parsed raw-record list, `now` the construction-time
timestamp (`datetime.now()` rendered later by `default=str`). -/
def extract_from_paper (now : String) (raws : List Json)
    (pm : PaperMetadata) : ExtractedData :=
  { paper_metadata := pm
    mechanical_properties := coerceAll raws
    extraction_timestamp := now
    extraction_method := "llm" }

/-!
## `save_results` and serialization (src/main.py lines 89-108)
-/

/-- The `UnifiedResults(...)` construction in `save_results`. -/
def save_results (now : String) (results : List ExtractedData) :
    UnifiedResults :=
  { extraction_date := now
    papers_processed := results.length
    total_properties_extracted :=
      (results.map (fun r => r.mechanical_properties.length)).sum
    data := results }

/-- `model_dump` of an optional string field (`None` → JSON null). -/
def optStrJson (v : Option String) : Json :=
  match v with
  | none => .null
  | some s => .str s

/-- `model_dump` of an optional float field. -/
def optNumJson (v : Option ℚ) : Json :=
  match v with
  | none => .null
  | some q => .num q

/-- `model_dump` of a `MechanicalProperty`, fields in declaration order. -/
def mechanicalPropertyJson (p : MechanicalProperty) : Json :=
  .obj [("material", .str p.material),
        ("condition", optStrJson p.condition),
        ("property_name", .str p.property_name),
        ("value", .num p.value),
        ("unit", .str p.unit),
        ("temperature", optNumJson p.temperature),
        ("temperature_unit", optStrJson p.temperature_unit),
        ("strain_rate", optNumJson p.strain_rate),
        ("additional_info",
          match p.additional_info with
          | none => .null
          | some fields => .obj fields)]

/-- `model_dump` of a `PaperMetadata`. -/
def paperMetadataJson (pm : PaperMetadata) : Json :=
  .obj [("doi", .str pm.doi),
        ("title", .str pm.title),
        ("authors", .arr (pm.authors.map Json.str)),
        ("publication_date", optStrJson pm.publication_date),
        ("journal", optStrJson pm.journal)]

/-- `model_dump` of an `ExtractedData`; the timestamp is rendered by
`json.dump(..., default=str)`. -/
def extractedDataJson (d : ExtractedData) : Json :=
  .obj [("paper_metadata", paperMetadataJson d.paper_metadata),
        ("mechanical_properties",
          .arr (d.mechanical_properties.map mechanicalPropertyJson)),
        ("extraction_timestamp", .str d.extraction_timestamp),
        ("extraction_method", .str d.extraction_method)]

/-- The JSON document written by `save_results`
(`json.dump(unified.model_dump(), ..., default=str)`). -/
def unifiedResultsJson (u : UnifiedResults) : Json :=
  .obj [("extraction_date", .str u.extraction_date),
        ("papers_processed", .num u.papers_processed),
        ("total_properties_extracted", .num u.total_properties_extracted),
        ("data", .arr (u.data.map extractedDataJson))]

/-- Length of a serialized entry's `mechanical_properties` array. -/
def propsLen (entry : Json) : Option ℕ :=
  match getField entry "mechanical_properties" with
  | some (.arr ps) => some ps.length
  | _ => none

/-- Sum of `propsLen` over a serialized `data` array; `none` if any entry
lacks the array. -/
def sumPropsLens (ds : List Json) : Option ℕ :=
  match ds with
  | [] => some 0
  | e :: rest => do
    let n ← propsLen e
    let m ← sumPropsLens rest
    pure (n + m)

/-!
## `download_pdf` interactive strategy tail (crossref_client.py lines
152-181)

After the click (or the known-domain `/pdf` navigation), the code polls
for in-progress markers, then takes `output_dir.glob("*.pdf")`, picks the
file with the largest `st_mtime` via `max(..., key=...)`, renames it to
the canonical filename if it differs, and returns the canonical path.
The directory listing after the wait is an input; nothing ties the chosen
file to this invocation's download.
-/

/-- A file in the output directory: name and modification time. -/
structure DirFile where
  name : String
  mtime : ℤ
deriving Repr, DecidableEq

/-- Membership in `output_dir.glob("*.pdf")`: the name ends in `.pdf`. -/
def isPdfFile (f : DirFile) : Bool :=
  ".pdf".toList.isSuffixOf f.name.toList

/-- `doi_clean.replace("/", "_") + ".pdf"`. -/
def canonicalFilename (doiClean : List Char) : String :=
  String.mk (pyReplace ['/'] ['_'] doiClean) ++ ".pdf"

/-- Lines 168-181: the selection and return of the interactive strategy,
given whether an affordance was clicked (or the known-domain navigation
taken) and the directory listing after the completion wait.  Returns the
chosen (most-recently-modified) PDF and the returned path — always the
canonical filename, after the conditional rename; `none` falls through
to the requests fallback. -/
def downloadPdfInteractive (downloadClicked : Bool) (files : List DirFile)
    (doiClean : List Char) : Option (DirFile × String) :=
  if downloadClicked then
    match files.filter isPdfFile with
    | [] => none
    | f :: rest => some (pyMaxBy DirFile.mtime f rest, canonicalFilename doiClean)
  else none

/-!
## Pipeline orchestrator (src/main.py lines 47-86)

External effects are an environment of per-paper outcomes; `.error` /
`none` mark the exceptions (or the `None` PDF path) that the loop's
`try/except`/`continue` absorb.  `extract_paper_info` is the concrete
function modelled above; an exception inside it is also caught by the
same `try`.
-/

/-- An entry of the `PAPERS` list. -/
structure PaperDesc where
  doi : String
  title : String
deriving Repr, DecidableEq

/-- Outcomes of the effectful per-paper steps. -/
structure PipelineEnv where
  get_metadata : String → Except String CrossrefMeta
  download_pdf : String → Option String
  extract_from_paper : String → PaperMetadata → Except String ExtractedData

/-- The body of the `for paper_info in PAPERS` loop: `none` exactly when
this paper is skipped (exception caught, or PDF download returned
`None`). -/
def processPaper (env : PipelineEnv) (p : PaperDesc) : Option ExtractedData :=
  match env.get_metadata p.doi with
  | .error _ => none
  | .ok meta =>
    match extract_paper_info meta with
    | none => none
    | some info =>
      let pm := mkPaperMetadata info
      match env.download_pdf p.doi with
      | none => none
      | some path =>
        match env.extract_from_paper path pm with
        | .error _ => none
        | .ok d => some d

/-- `process_papers`: the loop over the paper list, accumulating only the
successful papers, in order. -/
def process_papers (env : PipelineEnv) : List PaperDesc → List ExtractedData
  | [] => []
  | p :: rest =>
    match processPaper env p with
    | none => process_papers env rest
    | some d => d :: process_papers env rest

/-!
## Helper lemmas
-/

theorem coerceAll_eq_filterMap (raws : List Json) :
    coerceAll raws = raws.filterMap coerceRecord := by
  induction raws with
  | nil => rfl
  | cons p rest ih =>
    rw [coerceAll, List.filterMap_cons]
    cases coerceRecord p with
    | none => simpa using ih
    | some m => simpa using ih

theorem propsLen_extractedDataJson (d : ExtractedData) :
    propsLen (extractedDataJson d) =
      some d.mechanical_properties.length := by
  simp [propsLen, extractedDataJson, getField, lookupField]

theorem sumPropsLens_map (rs : List ExtractedData) :
    sumPropsLens (rs.map extractedDataJson) =
      some ((rs.map (fun r => r.mechanical_properties.length)).sum) := by
  induction rs with
  | nil => rfl
  | cons d rest ih =>
    rw [List.map_cons, sumPropsLens, propsLen_extractedDataJson, ih]
    simp

/-- C1: for every list of `ExtractedData` results, `save_results` builds a
`UnifiedResults` whose `papers_processed` is the length of its `data`
sequence and whose `total_properties_extracted` is the sum over `data` of
the lengths of each entry's `mechanical_properties`; the serialized
document agrees (its `data` array has `papers_processed` entries whose
`mechanical_properties` array lengths sum to
`total_properties_extracted`). -/
theorem save_results_counts (now : String) (rs : List ExtractedData) :
    (save_results now rs).papers_processed =
      (save_results now rs).data.length ∧
    (save_results now rs).total_properties_extracted =
      ((save_results now rs).data.map
        (fun r => r.mechanical_properties.length)).sum ∧
    ∃ ds, getField (unifiedResultsJson (save_results now rs)) "data" =
        some (.arr ds) ∧
      ds.length = (save_results now rs).papers_processed ∧
      sumPropsLens ds =
        some (save_results now rs).total_properties_extracted := by
  refine ⟨rfl, rfl, rs.map extractedDataJson, ?_, ?_, ?_⟩
  · simp [save_results, unifiedResultsJson, getField, lookupField]
  · simp [save_results]
  · exact sumPropsLens_map rs

theorem process_papers_append_skip (env : PipelineEnv) (xs : List PaperDesc)
    (p : PaperDesc) (ys : List PaperDesc) (h : processPaper env p = none) :
    process_papers env (xs ++ p :: ys) = process_papers env (xs ++ ys) := by
  induction xs with
  | nil =>
    rw [List.nil_append, List.nil_append, process_papers, h]
  | cons q rest ih =>
    rw [List.cons_append, List.cons_append, process_papers, process_papers]
    rw [ih]

/-- C2: a paper whose metadata fetch raises, whose PDF download returns
`None`, or whose extraction raises (for whatever path and metadata it
would be invoked with) is skipped by `process_papers`: it contributes no
entry to the results, and the papers around it are processed exactly as
if it were not in the list — no per-paper failure aborts the batch. -/
theorem process_papers_skips_failed_paper (env : PipelineEnv)
    (xs : List PaperDesc) (p : PaperDesc) (ys : List PaperDesc)
    (h : (∃ e, env.get_metadata p.doi = .error e) ∨
      env.download_pdf p.doi = none ∨
      (∀ path pm, ∃ e, env.extract_from_paper path pm = .error e)) :
    processPaper env p = none ∧
    process_papers env (xs ++ p :: ys) = process_papers env (xs ++ ys) := by
  have hskip : processPaper env p = none := by
    rcases h with ⟨e, he⟩ | hpdf | hext
    · simp [processPaper, he]
    · cases hm : env.get_metadata p.doi with
      | error e => simp [processPaper, hm]
      | ok meta =>
        cases hi : extract_paper_info meta with
        | none => simp [processPaper, hm, hi]
        | some info => simp [processPaper, hm, hi, hpdf]
    · cases hm : env.get_metadata p.doi with
      | error e => simp [processPaper, hm]
      | ok meta =>
        cases hi : extract_paper_info meta with
        | none => simp [processPaper, hm, hi]
        | some info =>
          cases hp : env.download_pdf p.doi with
          | none => simp [processPaper, hm, hi, hp]
          | some path =>
            obtain ⟨e, he⟩ := hext path (mkPaperMetadata info)
            simp [processPaper, hm, hi, hp, he]
  exact ⟨hskip, process_papers_append_skip env xs p ys hskip⟩

/-- Environment for the C2 witness: the catalog fetch always raises. -/
def envMetaFailure : PipelineEnv :=
  { get_metadata := fun _ => .error "ConnectionError"
    download_pdf := fun _ => none
    extract_from_paper := fun _ _ => .error "unreached" }

/-- Witness descriptor for C2. -/
def paperW : PaperDesc :=
  { doi := "https://doi.org/10.3390/cryst9110586", title := "ECAP paper" }

theorem process_papers_skips_failed_paper_witness :
    processPaper envMetaFailure paperW = none ∧
    process_papers envMetaFailure ([] ++ paperW :: []) =
      process_papers envMetaFailure ([] ++ []) :=
  process_papers_skips_failed_paper envMetaFailure [] paperW []
    (Or.inl ⟨"ConnectionError", rfl⟩)

/-- A catalog service that answers every request with HTTP 404. -/
def env404 : ℕ → List Char → HttpResponse :=
  fun _ _ => { status := 404, body := .null }

/-- A concrete identifier used in the C3 development. -/
def doi404 : List Char := "10.9999/gone".toList

/-- C3 counterexample: against a service that persistently answers 404,
`get_metadata` makes 3 attempts, not the single attempt the claim's
"fails immediately without retrying" requires — the retry decorator does
not discriminate 404 from transient failures. -/
theorem get_metadata_404_retried_counterexample :
    get_metadata env404 doi404 = (.error (.httpStatus 404), 3) ∧
    (3 : ℕ) ≠ 1 := by
  constructor
  · rfl
  · decide

/-- C3 amended: the 3-attempt exponential-backoff retry of `get_metadata`
applies to every failure, 404 included: when all three attempts fail
(with any statuses), the error surfaces only after exactly 3 attempts;
and a 404 on the first attempt is retried, so a success on the second
attempt yields that success after 2 attempts. -/
theorem get_metadata_retries_every_failure :
    (∀ (env : ℕ → List Char → HttpResponse) (doi : List Char),
      (∀ k, k < 3 → ∃ e, getMetadataOnce env doi k = .error e) →
      ∃ e, get_metadata env doi = (.error e, 3)) ∧
    (∀ (env : ℕ → List Char → HttpResponse) (doi : List Char)
      (e : GetErr) (m : Json),
      getMetadataOnce env doi 0 = .error e →
      getMetadataOnce env doi 1 = .ok m →
      get_metadata env doi = (.ok m, 2)) := by
  constructor
  · intro env doi h
    obtain ⟨e0, h0⟩ := h 0 (by decide)
    obtain ⟨e1, h1⟩ := h 1 (by decide)
    obtain ⟨e2, h2⟩ := h 2 (by decide)
    exact ⟨e2, by simp [get_metadata, retryRun, retryGo, h0, h1, h2]⟩
  · intro env doi e m h0 h1
    simp [get_metadata, retryRun, retryGo, h0, h1]

/-- A catalog service that answers 404 on the first attempt and then
recovers. -/
def envFlaky404 : ℕ → List Char → HttpResponse :=
  fun k _ =>
    if k = 0 then { status := 404, body := .null }
    else { status := 200, body := .obj [("message", .str "meta")] }

theorem get_metadata_retries_every_failure_witness :
    get_metadata envFlaky404 doi404 = (.ok (.str "meta"), 2) :=
  get_metadata_retries_every_failure.2 envFlaky404 doi404
    (.httpStatus 404) (.str "meta") rfl rfl

/-- A reasoning service whose call raises on every attempt. -/
def envLLMDown : ℕ → Except String Json :=
  fun _ => .error "APIConnectionError"

/-- C4: the claim matches the evident intent of the `@retry` decorator on
`extract_properties`, but the decorator is dead code: the whole body sits
inside `try/except` returning `[]`, so no failure ever reaches tenacity.
Against a service whose call raises on every attempt, the call is made
exactly once and "succeeds" with the empty list; it is neither retried
nor given up on.  More generally, every run of the decorated function
performs exactly one attempt and returns that attempt's (never-failing)
result. -/
theorem extract_properties_never_retries :
    extract_properties envLLMDown = (.ok (.arr []), 1) ∧
    (∀ env : ℕ → Except String Json,
      extract_properties env = (extractPropertiesOnce env 0, 1)) ∧
    (∀ (env : ℕ → Except String Json) (k : ℕ),
      ∃ j, extractPropertiesOnce env k = .ok j) := by
  refine ⟨rfl, ?_, ?_⟩
  · intro env
    cases henv : env 0 with
    | error e => simp [extract_properties, retryRun, retryGo,
        extractPropertiesOnce, henv]
    | ok data => simp [extract_properties, retryRun, retryGo,
        extractPropertiesOnce, henv]
  · intro env k
    cases henv : env k with
    | error e => exact ⟨.arr [], by simp [extractPropertiesOnce, henv]⟩
    | ok data => exact ⟨parseResponse data, by simp [extractPropertiesOnce, henv]⟩

/-- C5 counterexample: `{"properties": 5}` is none of the four tolerated
shapes, so the claim requires the empty sequence; the code instead
returns the value of the `properties` key unchecked — here the number 5,
which is not a sequence at all. -/
theorem parseResponse_nonarray_counterexample :
    parseResponse (.obj [("properties", .num 5)]) = .num 5 ∧
    Json.num 5 ≠ .arr [] := by
  exact ⟨rfl, fun h => Json.noConfusion h⟩

/-- C5 amended: a bare array, `{"properties": [...]}`, `{"data": [...]}`
and an object whose first array-valued field holds the array all parse to
the same sequence; however, a present `properties` key (or, failing that,
a `data` key) is returned unchanged even when its value is not an array;
the empty sequence results exactly from the remaining shapes: an object
with neither key and no array-valued field, or a non-object non-array
document. -/
theorem parseResponse_shape_tolerance :
    (∀ xs : List Json, parseResponse (.arr xs) = .arr xs) ∧
    (∀ (fields : List (String × Json)) (v : Json),
      lookupField fields "properties" = some v →
      parseResponse (.obj fields) = v) ∧
    (∀ (fields : List (String × Json)) (v : Json),
      lookupField fields "properties" = none →
      lookupField fields "data" = some v →
      parseResponse (.obj fields) = v) ∧
    (∀ (fields : List (String × Json)) (v : Json),
      lookupField fields "properties" = none →
      lookupField fields "data" = none →
      firstArrayValue fields = some v →
      parseResponse (.obj fields) = v) ∧
    (∀ fields : List (String × Json),
      lookupField fields "properties" = none →
      lookupField fields "data" = none →
      firstArrayValue fields = none →
      parseResponse (.obj fields) = .arr []) ∧
    (parseResponse .null = .arr [] ∧
      (∀ b, parseResponse (.bool b) = .arr []) ∧
      (∀ q, parseResponse (.num q) = .arr []) ∧
      (∀ s, parseResponse (.str s) = .arr [])) := by
  refine ⟨fun xs => rfl, ?_, ?_, ?_, ?_, rfl, fun b => rfl, fun q => rfl,
    fun s => rfl⟩
  · intro fields v hp
    simp [parseResponse, hp]
  · intro fields v hp hd
    simp [parseResponse, hp, hd]
  · intro fields v hp hd hf
    simp [parseResponse, hp, hd, hf]
  · intro fields hp hd hf
    simp [parseResponse, hp, hd, hf]

theorem parseResponse_shape_tolerance_witness :
    parseResponse (.obj [("data", .arr [.str "rec"])]) = .arr [.str "rec"] :=
  parseResponse_shape_tolerance.2.2.1 [("data", .arr [.str "rec"])]
    (.arr [.str "rec"]) rfl rfl

/-- C6: for a valid identifier — one not containing the resolver prefix
as a substring, which every real DOI satisfies — the resolver-prefixed
form and the bare form normalize to the same internal key, so
`get_metadata` builds the same request URL and returns identical
metadata against any catalog service. -/
theorem get_metadata_prefix_invariant
    (env : ℕ → List Char → HttpResponse) (id : List Char)
    (h : containsPat doiPrefix id = false) :
    normalizeDoi (doiPrefix ++ id) = id ∧
    normalizeDoi id = id ∧
    metadataUrl (doiPrefix ++ id) = metadataUrl id ∧
    get_metadata env (doiPrefix ++ id) = get_metadata env id := by
  have hbare : normalizeDoi id = id := by
    rw [normalizeDoi, pyReplace_of_not_contains doiPrefix [] id h]
  have hnorm : normalizeDoi (doiPrefix ++ id) = id := by
    rw [normalizeDoi,
      pyReplace_append_prefix doiPrefix [] id (by decide),
      List.nil_append]
    exact hbare
  have hurl : metadataUrl (doiPrefix ++ id) = metadataUrl id := by
    rw [metadataUrl, metadataUrl, hnorm, hbare]
  refine ⟨hnorm, hbare, hurl, ?_⟩
  have honce : getMetadataOnce env (doiPrefix ++ id) =
      getMetadataOnce env id := by
    funext k
    rw [getMetadataOnce, getMetadataOnce, hurl]
  rw [get_metadata, get_metadata, honce]

/-- A fixed catalog service for the C6 witness. -/
def envCatalogOk : ℕ → List Char → HttpResponse :=
  fun _ _ => { status := 200, body := .obj [("message", .str "meta")] }

/-- The identifier of the end-to-end scenario in the spec. -/
def doiCryst : List Char := "10.3390/cryst9110586".toList

theorem get_metadata_prefix_invariant_witness :
    normalizeDoi (doiPrefix ++ doiCryst) = doiCryst ∧
    normalizeDoi doiCryst = doiCryst ∧
    metadataUrl (doiPrefix ++ doiCryst) = metadataUrl doiCryst ∧
    get_metadata envCatalogOk (doiPrefix ++ doiCryst) =
      get_metadata envCatalogOk doiCryst :=
  get_metadata_prefix_invariant envCatalogOk doiCryst (by decide)

/-- A metadata document with no print-publication date. -/
def metaNoPrintDate : CrossrefMeta :=
  { DOI := some "10.3390/cryst9110586"
    title := some ["Effect of ECAP"]
    author := none
    published_print := none
    container_title := none
    publisher := none
    abstract := none }

/-- C7 counterexample: on a document whose print-publication date is
missing, the `[[None]]` default makes the extracted entry `[None]`,
which is truthy, so `process_papers` stores the string `"None"` in
`publication_date` — not the null the claim requires. -/
theorem publication_date_missing_counterexample :
    (extract_paper_info metaNoPrintDate).map
        (fun i => (mkPaperMetadata i).publication_date) =
      some (some "None") ∧
    (some "None" : Option String) ≠ none := by
  exact ⟨rfl, fun h => Option.noConfusion h⟩

/-- C7 amended: the `publication_date` placed in the constructed
`PaperMetadata` is `str()` of the FIRST ELEMENT of the first `date-parts`
entry (e.g. `"2019"`), not the whole entry; when the print-publication
date (or its `date-parts` key) is missing it is the string `"None"`,
since the `[[None]]` default is truthy; it is null exactly when the first
`date-parts` entry is an empty list; and when `date-parts` itself is the
empty list, `extract_paper_info` raises instead of returning. -/
theorem publication_date_characterization (m : CrossrefMeta) :
    (m.published_print = none ∨
        (∃ pp, m.published_print = some pp ∧ pp.date_parts = none) →
      (extract_paper_info m).map
          (fun i => (mkPaperMetadata i).publication_date) =
        some (some "None")) ∧
    (∀ pp, m.published_print = some pp → pp.date_parts = some [] →
      extract_paper_info m = none) ∧
    (∀ pp rest, m.published_print = some pp →
      pp.date_parts = some ([] :: rest) →
      (extract_paper_info m).map
          (fun i => (mkPaperMetadata i).publication_date) =
        some none) ∧
    (∀ pp y ytail rest, m.published_print = some pp →
      pp.date_parts = some ((y :: ytail) :: rest) →
      (extract_paper_info m).map
          (fun i => (mkPaperMetadata i).publication_date) =
        some (some (toString y))) := by
  refine ⟨?_, ?_, ?_, ?_⟩
  · rintro (hpp | ⟨pp, hpp, hdp⟩)
    · simp [extract_paper_info, pubDateField, hpp, mkPaperMetadata,
        pyStrOptInt]
    · simp [extract_paper_info, pubDateField, hpp, hdp, mkPaperMetadata,
        pyStrOptInt]
  · intro pp hpp hdp
    simp [extract_paper_info, pubDateField, hpp, hdp]
  · intro pp rest hpp hdp
    simp [extract_paper_info, pubDateField, hpp, hdp, mkPaperMetadata]
  · intro pp y ytail rest hpp hdp
    simp [extract_paper_info, pubDateField, hpp, hdp, mkPaperMetadata,
      pyStrOptInt]

/-- A document whose print date is `[[2019, 10]]`, for the C7 witness. -/
def metaOct2019 : CrossrefMeta :=
  { DOI := some "10.3390/cryst9110586"
    title := some ["Effect of ECAP"]
    author := none
    published_print := some { date_parts := some [[2019, 10]] }
    container_title := none
    publisher := none
    abstract := none }

theorem publication_date_characterization_witness :
    (extract_paper_info metaOct2019).map
        (fun i => (mkPaperMetadata i).publication_date) =
      some (some (toString (2019 : ℤ))) :=
  (publication_date_characterization metaOct2019).2.2.2
    { date_parts := some [[2019, 10]] } 2019 [10] [] rfl rfl

/-- A document missing `author`, `title` and `container-title`, whose
`date-parts` is the empty list. -/
def metaEmptyDateParts : CrossrefMeta :=
  { DOI := none
    title := none
    author := none
    published_print := some { date_parts := some [] }
    container_title := none
    publisher := none
    abstract := none }

/-- C8 counterexample: this document is missing every key named by the
claim, yet `extract_paper_info` raises (an `IndexError`, modelled by
`none`) because `metadata.get("published-print", {}).get("date-parts",
[[None]])[0]` indexes into the present-but-empty `date-parts` list — so
"never raises an exception" fails as universally stated. -/
theorem extract_paper_info_raises_counterexample :
    metaEmptyDateParts.author = none ∧
    metaEmptyDateParts.title = none ∧
    metaEmptyDateParts.container_title = none ∧
    extract_paper_info metaEmptyDateParts = none := by
  exact ⟨rfl, rfl, rfl, rfl⟩

/-- `date-parts` is not a present-but-empty list (the only input that
makes `extract_paper_info` raise). -/
def datePartsSafe (m : CrossrefMeta) : Bool :=
  match m.published_print with
  | none => true
  | some pp =>
    match pp.date_parts with
    | none => true
    | some [] => false
    | some (_ :: _) => true

/-- C8 amended: on every metadata document whose `date-parts`, when both
it and `published-print` are present, is nonempty, `extract_paper_info`
returns normally, and each of the keys `author`, `title`,
`container-title`, when missing, yields its empty-but-valid default
(empty sequence for authors, empty string for title and journal). -/
theorem extract_paper_info_defaults (m : CrossrefMeta)
    (h : datePartsSafe m = true) :
    ∃ info, extract_paper_info m = some info ∧
      (m.author = none → info.authors = []) ∧
      (m.title = none → info.title = "") ∧
      (m.container_title = none → info.journal = "") := by
  have hpd : ∃ pd, pubDateField m = some pd := by
    cases hpp : m.published_print with
    | none => exact ⟨[none], by simp [pubDateField, hpp]⟩
    | some pp =>
      cases hdp : pp.date_parts with
      | none => exact ⟨[none], by simp [pubDateField, hpp, hdp]⟩
      | some l =>
        cases l with
        | nil => simp [datePartsSafe, hpp, hdp] at h
        | cons e rest =>
          exact ⟨e.map some, by simp [pubDateField, hpp, hdp]⟩
  obtain ⟨pd, hpd⟩ := hpd
  refine ⟨_, by rw [extract_paper_info, hpd]; rfl, ?_, ?_, ?_⟩
  · intro ha
    simp [extractAuthors, ha]
  · intro ht
    simp [firstOrEmpty, ht]
  · intro hc
    simp [firstOrEmpty, hc]

/-- A document missing all three keys, with no print date either. -/
def metaBare : CrossrefMeta :=
  { DOI := some "10.1000/bare"
    title := none
    author := none
    published_print := none
    container_title := none
    publisher := none
    abstract := none }

theorem extract_paper_info_defaults_witness :
    ∃ info, extract_paper_info metaBare = some info ∧
      (metaBare.author = none → info.authors = []) ∧
      (metaBare.title = none → info.title = "") ∧
      (metaBare.container_title = none → info.journal = "") :=
  extract_paper_info_defaults metaBare rfl

/-- C9: the coercion loop of `extract_from_paper` keeps exactly the raw
records that survive value-cleanup and validation, in order — a failing
record is dropped without aborting the batch — and a record whose
`value` is the string `"1,234.5"` has its thousands separator stripped
and is coerced to the number 1234.5, passing validation. -/
theorem extract_from_paper_record_coercion :
    (∀ (now : String) (raws : List Json) (pm : PaperMetadata),
      (extract_from_paper now raws pm).mechanical_properties =
        raws.filterMap coerceRecord) ∧
    coerceRecord (.obj [("material", .str "AZ31"),
        ("property_name", .str "UTS"),
        ("value", .str "1,234.5"),
        ("unit", .str "MPa")]) =
      some { material := "AZ31", condition := none, property_name := "UTS",
             value := 1234.5, unit := "MPa", temperature := none,
             temperature_unit := none, strain_rate := none,
             additional_info := some [] } := by
  refine ⟨fun now raws pm => coerceAll_eq_filterMap raws, ?_⟩
  have h : coerceRecord (.obj [("material", .str "AZ31"),
        ("property_name", .str "UTS"),
        ("value", .str "1,234.5"),
        ("unit", .str "MPa")]) =
      some { material := "AZ31", condition := none,
             property_name := "UTS",
             value := (digitsVal ['1', '2', '3', '4'] : ℚ) +
               (digitsVal ['5'] : ℚ) / 10 ^ 1,
             unit := "MPa", temperature := none, temperature_unit := none,
             strain_rate := none, additional_info := some [] } := rfl
  have h1 : digitsVal ['1', '2', '3', '4'] = 1234 := by decide
  have h2 : digitsVal ['5'] = 5 := by decide
  rw [h, h1, h2]
  norm_num [MechanicalProperty.mk.injEq]

theorem pyMaxBy_mem {α : Type} (key : α → ℤ) (cur : α) (xs : List α) :
    pyMaxBy key cur xs = cur ∨ pyMaxBy key cur xs ∈ xs := by
  induction xs generalizing cur with
  | nil => exact Or.inl rfl
  | cons x rest ih =>
    by_cases hc : key x > key cur
    · rw [pyMaxBy, if_pos hc]
      rcases ih x with h | h
      · exact Or.inr (by rw [h]; exact List.mem_cons_self x rest)
      · exact Or.inr (List.mem_cons_of_mem x h)
    · rw [pyMaxBy, if_neg hc]
      rcases ih cur with h | h
      · exact Or.inl h
      · exact Or.inr (List.mem_cons_of_mem x h)

theorem pyMaxBy_le {α : Type} (key : α → ℤ) (cur : α) (xs : List α) :
    key cur ≤ key (pyMaxBy key cur xs) ∧
    ∀ x ∈ xs, key x ≤ key (pyMaxBy key cur xs) := by
  induction xs generalizing cur with
  | nil => exact ⟨le_refl _, fun x hx => absurd hx (List.not_mem_nil x)⟩
  | cons y rest ih =>
    by_cases hc : key y > key cur
    · rw [pyMaxBy, if_pos hc]
      obtain ⟨h1, h2⟩ := ih y
      refine ⟨le_trans (le_of_lt hc) h1, ?_⟩
      intro x hx
      rcases List.mem_cons.mp hx with rfl | hx
      · exact h1
      · exact h2 x hx
    · rw [pyMaxBy, if_neg hc]
      obtain ⟨h1, h2⟩ := ih cur
      refine ⟨h1, ?_⟩
      intro x hx
      rcases List.mem_cons.mp hx with rfl | hx
      · exact le_trans (not_lt.mp hc) h1
      · exact h2 x hx

/-- C10: once an affordance was clicked (or the known-domain navigation
taken), the interactive strategy returns the canonical output path
whenever the directory holds at least one `.pdf` file, selecting the
most-recently-modified one (ties broken toward the earlier listing
entry, as Python's `max`) and renaming it to the canonical name.  The
directory listing is an arbitrary input with no freshness constraint, so
the chosen file may predate the click — e.g. a PDF left over from a
previous paper — and the returned path need not hold content
downloaded in this invocation. -/
theorem download_pdf_interactive_returns_canonical
    (files : List DirFile) (doiClean : List Char)
    (h : files.filter isPdfFile ≠ []) :
    ∃ chosen, downloadPdfInteractive true files doiClean =
        some (chosen, canonicalFilename doiClean) ∧
      chosen ∈ files.filter isPdfFile ∧
      ∀ g ∈ files.filter isPdfFile, g.mtime ≤ chosen.mtime := by
  cases hf : files.filter isPdfFile with
  | nil => exact absurd hf h
  | cons f rest =>
    refine ⟨pyMaxBy DirFile.mtime f rest, ?_, ?_, ?_⟩
    · rw [downloadPdfInteractive]
      simp [hf]
    · rcases pyMaxBy_mem DirFile.mtime f rest with hm | hm
      · rw [hm]; exact List.mem_cons_self f rest
      · exact List.mem_cons_of_mem f hm
    · intro g hg
      rcases List.mem_cons.mp hg with rfl | hg
      · exact (pyMaxBy_le DirFile.mtime g rest).1
      · exact (pyMaxBy_le DirFile.mtime f rest).2 g hg

/-- A directory whose only PDF predates this invocation's click: nothing
was downloaded, the file is a leftover from an earlier paper. -/
def staleDir : List DirFile :=
  [{ name := "previous_paper.pdf", mtime := 5 }]

theorem download_pdf_interactive_returns_canonical_witness :
    ∃ chosen, downloadPdfInteractive true staleDir doiCryst =
        some (chosen, canonicalFilename doiCryst) ∧
      chosen ∈ staleDir.filter isPdfFile ∧
      ∀ g ∈ staleDir.filter isPdfFile, g.mtime ≤ chosen.mtime :=
  download_pdf_interactive_returns_canonical staleDir doiCryst (by decide)
